/-
  Shallow embedding of the PDAL stage/iterator pipeline engine and the
  pgpointcloud driver Writer, together with proofs of the stated contracts.

  Source-derived definitions follow `src/src/drivers/pgpointcloud/Writer.cpp`
  and the interface declarations in `src/unnamed/part_000` (StageIterator.hpp)
  and `src/unnamed/part_001` (SWIG interface).  Core components whose
  implementation files are not part of the source set (Schema.cpp,
  StageIterator.cpp, the core Writer.cpp drive loop, Options.cpp) are
  modelled from the specification, and are marked as such in their doc
  comments.
-/
import Mathlib

set_option autoImplicit false

namespace pdal

/-- Scalar data types of a dimension, from the `Dimension::DataType`
enumeration declared in the SWIG interface file. -/
inductive DataType where
  | Int8 | Uint8 | Int16 | Uint16 | Int32 | Uint32 | Int64 | Uint64
  | Float     -- 32 bits
  | Double    -- 64 bits
  | Undefined
deriving DecidableEq

/-- Byte size of each scalar data type (`Dimension::getDataTypeSize`).
The implementation file for `Dimension` is not in the source set; the sizes
are fixed by the specification ("signed/unsigned integers 8-64 bit, 32/64-bit
float", byte size derived from the data type).  The source throws for
`Undefined`, so no constructible dimension has byte size 0. -/
def getDataTypeSize : DataType → Nat
  | .Int8 => 1 | .Uint8 => 1
  | .Int16 => 2 | .Uint16 => 2
  | .Int32 => 4 | .Uint32 => 4
  | .Int64 => 8 | .Uint64 => 8
  | .Float => 4
  | .Double => 8
  | .Undefined => 0

/-- One named, typed scalar field of a point record.  Field tag and name are
merged into `name` (lookup in the driver is by name, e.g. "BlockID");
`scale`/`offset` are the mutable numeric metadata (C++ doubles, modelled as
rationals); `position` and `byteOffset` are the layout attributes assigned
during packing; `parent` models the provenance uuid (0 = nil uuid). -/
structure Dimension where
  name : String
  dataType : DataType
  scale : Rat := 1
  offset : Rat := 0
  ignored : Bool := false
  position : Nat := 0
  byteOffset : Nat := 0
  parent : Nat := 0
deriving DecidableEq

/-- `Dimension::getByteSize`: fixed once the data type is chosen. -/
def Dimension.byteSize (d : Dimension) : Nat := getDataTypeSize d.dataType

/-- `Dimension::isIgnored`. -/
def Dimension.isIgnored (d : Dimension) : Bool := d.ignored

/-- An ordered collection of dimensions (`pdal::Schema`); `dims` is the
`schema::index_by_index` view walked by the driver. -/
structure Schema where
  dims : List Dimension
deriving DecidableEq

/-- Total byte size of one unpacked point record: the running sum accumulated
by appending every dimension (`Schema::getByteSize`). -/
def Schema.byteSize (s : Schema) : Nat := (s.dims.map Dimension.byteSize).sum

/-- Error kinds of the core (spec section 7).  `missingOption` is
`MissingOptionError` (carries the offending key), `notFound` is
`NotFoundError` (unknown dimension lookup), `readError` is `ReadError`;
`sociDriverError` and `pdalError` are the driver-level failures thrown by
`Writer.cpp`. -/
inductive PdalError where
  | missingOption (key : String)
  | notFound (name : String)
  | readError
  | writeError
  | sociDriverError (msg : String)
  | pdalError (msg : String)
deriving DecidableEq

/-- Modelled from the spec: `Schema.getDimension(name)` fails with
`NotFoundError` if absent (spec section 4.1); the lookup used by the driver
(`buffer.getSchema().getDimension("BlockID")`) is by dimension name.  The
Schema implementation file is not in the source set. -/
def Schema.getDimension (s : Schema) (nm : String) : Except PdalError Dimension :=
  match s.dims.find? (fun d => d.name == nm) with
  | some d => .ok d
  | none => .error (.notFound nm)

/-- Modelled from the spec: appending a dimension to a schema assigns its
byte offset from the running byte size (spec section 4.2: "for each
non-ignored dimension assigns `offset = runningSize`, then
`runningSize += dimension.byteSize`").  The core Schema implementation is not
in the source set; `Writer::PackSchema` calls `appendDimension` on a schema
holding only non-ignored dimensions, so the running size rule applies to
every appended dimension. -/
def Schema.appendDimension (s : Schema) (d : Dimension) : Schema :=
  ⟨s.dims ++ [{ d with byteOffset := s.byteSize }]⟩

/-- `Writer::PackSchema` (Writer.cpp lines 368-394): walk the dimensions in
schema order; for each non-ignored dimension copy it, set its position from
the running counter of non-ignored dimensions, wipe the parent uuid, and
append it to the clean schema. -/
def PackSchema (s : Schema) : Schema :=
  (s.dims.foldl
    (fun (acc : Schema × Nat) d =>
      if d.isIgnored then acc
      else (acc.1.appendDimension { d with position := acc.2, parent := 0 }, acc.2 + 1))
    (⟨[]⟩, 0)).1

/-- The packed schema byte size computed by `Writer::PackPointData`
(Writer.cpp lines 608-614): the sum of the byte sizes of the non-ignored
dimensions, accumulated in schema order. -/
def packedByteSize (s : Schema) : Nat :=
  s.dims.foldl (fun acc d => if d.isIgnored then acc else acc + d.byteSize) 0

/-- A point buffer: a fixed set of point records conforming to the schema;
each record is the concatenation, in schema order, of every dimension's
bytes (`buffer.getData(i)` returns record `i`).  Bytes are modelled as
natural numbers. -/
structure PointBuffer where
  schema : Schema
  points : List (List Nat)
deriving DecidableEq

/-- `PointBuffer::getNumPoints`. -/
def PointBuffer.getNumPoints (b : PointBuffer) : Nat := b.points.length

/-- The inner loop of `Writer::PackPointData` (Writer.cpp lines 623-636) on a
single point record: walk the dimensions in schema order; copy the
dimension's bytes when it is not ignored; advance the data cursor by the
dimension's byte size in every case. -/
def packRecord : List Dimension → List Nat → List Nat
  | [], _ => []
  | d :: ds, data =>
    (if d.isIgnored then [] else data.take d.byteSize) ++ packRecord ds (data.drop d.byteSize)

/-- `Writer::PackPointData` (Writer.cpp lines 597-639): computes the packed
schema byte size, allocates `numPoints * schema_byte_size` output bytes, and
copies each point's non-ignored dimension bytes in order.  Returns
(packed bytes, `point_data_len`, `schema_byte_size`). -/
def PackPointData (buffer : PointBuffer) : List Nat × Nat × Nat :=
  let schema_byte_size := packedByteSize buffer.schema
  let point_data := (buffer.points.map (packRecord buffer.schema.dims)).flatten
  (point_data, buffer.getNumPoints * schema_byte_size, schema_byte_size)

/-- Specification helper used in the proofs: packing written as a direct
recursion carrying the position counter and the running byte offset.
`PackSchema` is proved equal to `packGo` over the schema's dimension list. -/
def packGo : List Dimension → Nat → Nat → List Dimension
  | [], _, _ => []
  | d :: ds, p, off =>
    if d.isIgnored then packGo ds p off
    else { d with position := p, parent := 0, byteOffset := off } :: packGo ds (p + 1) (off + d.byteSize)

/-- Byte offset of dimension `i` inside one unpacked point record: the sum of
the byte sizes of all preceding dimensions (the cursor advance of
`Writer::PackPointData`, which adds every dimension's byte size whether or
not it is ignored). -/
def unpackedOffset (dims : List Dimension) (i : Nat) : Nat :=
  ((dims.take i).map Dimension.byteSize).sum

/-- Placeholder dimension used as the default of list lookups in statements
(never an element of any schema under consideration). -/
def dimDefault : Dimension :=
  { name := "", dataType := .Undefined }

/-- The layout of one unpacked point record: each dimension of the schema
paired with its slice of the record's bytes, walking the record in schema
order and advancing by each dimension's byte size. -/
def recordSlices : List Dimension → List Nat → List (Dimension × List Nat)
  | [], _ => []
  | d :: ds, r => (d, r.take d.byteSize) :: recordSlices ds (r.drop d.byteSize)

/-- The identity-plus-metadata view of a dimension on which schema equality
compares: field name, data type, and numeric scale/offset metadata.  The
layout attributes (position, byte offset) are derived from dimension order
and are not part of the comparison, making the equality order-independent. -/
def Dimension.key (d : Dimension) : String × DataType × Rat × Rat :=
  (d.name, d.dataType, d.scale, d.offset)

/-- Modelled from the spec: two Schemas are equal iff their Dimension sets
are equal, order-independent on identity but dependent on metadata such as
scale/offset (spec section 3).  `Schema::operator==` and the xml round trip
`from_xml`/`to_xml` used by `Writer::SetupSchema` are not in the source set;
the catalog is modelled as holding schemas directly. -/
def schemaEq (a b : Schema) : Bool :=
  decide ((a.dims.map Dimension.key).Perm (b.dims.map Dimension.key))

/-! ### Options (spec section 6; the core Options implementation is absent
from the source set and is modelled from the specification contract). -/

/-- A typed option value: string, unsigned integer, or boolean. -/
inductive OptValue where
  | vs (v : String)
  | vn (v : Nat)
  | vb (v : Bool)
deriving DecidableEq

/-- A string-keyed, typed configuration map. -/
structure Options where
  opts : List (String × OptValue)
deriving DecidableEq

/-- First string value stored under `key`, if any. -/
def Options.findS (o : Options) (key : String) : Option String :=
  o.opts.findSome? (fun p =>
    if p.1 = key then match p.2 with | .vs v => some v | _ => none else none)

/-- First numeric value stored under `key`, if any. -/
def Options.findN (o : Options) (key : String) : Option Nat :=
  o.opts.findSome? (fun p =>
    if p.1 = key then match p.2 with | .vn v => some v | _ => none else none)

/-- First boolean value stored under `key`, if any. -/
def Options.findB (o : Options) (key : String) : Option Bool :=
  o.opts.findSome? (fun p =>
    if p.1 = key then match p.2 with | .vb v => some v | _ => none else none)

/-- Modelled from the spec: `getValueOrThrow<T>(key)` fails with
`MissingOptionError` naming the key if absent (spec section 6). -/
def Options.getValueOrThrowS (o : Options) (key : String) : Except PdalError String :=
  match o.findS key with
  | some v => .ok v
  | none => .error (.missingOption key)

/-- Modelled from the spec: `getValueOrDefault<T>(key, default)` never fails
(spec section 6): present value, else the default. -/
def Options.getValueOrDefaultS (o : Options) (key d : String) : String :=
  (o.findS key).getD d

/-- Numeric variant of `getValueOrDefault`. -/
def Options.getValueOrDefaultN (o : Options) (key : String) (d : Nat) : Nat :=
  (o.findN key).getD d

/-- Boolean variant of `getValueOrDefault`. -/
def Options.getValueOrDefaultB (o : Options) (key : String) (d : Bool) : Bool :=
  (o.findB key).getD d

/-! ### StageIterator (declarations in `src/unnamed/part_000`; the
implementation file StageIterator.cpp is absent from the source set, so the
behaviour is modelled from the specification, section 4.5). -/

/-- Base iterator state: the current point number `m_index` (starts at 0) and
the caller-configurable `m_chunkSize`. -/
structure StageIterator where
  m_index : Nat
  m_chunkSize : Nat
deriving DecidableEq

/-- Model of the underlying concrete source driven by the pure virtual
`readImpl`: a total number of available points, the point values themselves,
and a flag saying whether the next physical read fails. -/
structure SourceModel where
  total : Nat
  point : Nat → Nat
  fails : Bool

/-- Modelled from the spec: `StageIterator::read(buffer)` fills the buffer
with up to `min(chunkSize, buffer.capacity)` points starting at the current
index, returns the count actually placed, and advances `m_index` by that
count; a failing underlying source fails with `ReadError` and leaves the
iterator unchanged (spec section 4.5).  The result pairs the outcome (count
placed and the points filled into the buffer) with the iterator state after
the call. -/
def StageIterator.read (src : SourceModel) (it : StageIterator) (capacity : Nat) :
    Except PdalError (Nat × List Nat) × StageIterator :=
  if src.fails then (.error .readError, it)
  else
    let requested := min it.m_chunkSize capacity
    let numRead := min requested (src.total - it.m_index)
    (.ok (numRead, (List.range numRead).map (fun k => src.point (it.m_index + k))),
     { it with m_index := it.m_index + numRead })

/-- Modelled from the spec: `StageIterator::naiveSkipImpl(count)` advances
`count` points forward by repeatedly calling `read` into a throwaway buffer
(comment in StageIterator.hpp lines 81-84; spec section 4.5), returning the
number actually skipped, and surfacing a `ReadError` from the underlying
`read` it drives (spec section 7). -/
def StageIterator.naiveSkipImpl (src : SourceModel) (it : StageIterator) (count : Nat) :
    Except PdalError (Nat × StageIterator) :=
  if h1 : count = 0 then .ok (0, it)
  else
    match StageIterator.read src it count with
    | (.error e, _) => .error e
    | (.ok (numRead, _), it') =>
      if h0 : numRead = 0 then .ok (0, it')
      else
        match StageIterator.naiveSkipImpl src it' (count - numRead) with
        | .error e => .error e
        | .ok (rest, it'') => .ok (numRead + rest, it'')
termination_by count
decreasing_by omega

/-- `StageSequentialIterator::skip(count)`: the conforming default
implementation realizes the skip with `naiveSkipImpl` (StageIterator.hpp
lines 103-111; spec section 4.5). -/
def StageSequentialIterator.skip (src : SourceModel) (it : StageIterator) (count : Nat) :
    Except PdalError (Nat × StageIterator) :=
  StageIterator.naiveSkipImpl src it count

/-- Modelled from the spec: `atEnd()` is true once
`currentIndex >= totalAvailablePoints` (spec section 4.5). -/
def StageSequentialIterator.atEnd (src : SourceModel) (it : StageIterator) : Bool :=
  src.total ≤ it.m_index

/-! ### Writer drive loop (declaration `Writer::write(targetNumPointsToWrite
= 0)` in `src/unnamed/part_001` lines 432-448; the core Writer.cpp drive
loop is absent from the source set and is modelled from the specification,
section 4.6). -/

/-- Buffer-lifecycle events emitted by the drive loop against a Writer. -/
inductive WriteEvent where
  | writeBegin
  | writeBufferBegin
  | writeBuffer (numWritten : Nat)
  | writeBufferEnd
  | writeError
  | writeEnd (actualWritten : Nat)
deriving DecidableEq

/-- Recognizer for the `writeBegin` event. -/
def isBeginEvent : WriteEvent → Bool
  | .writeBegin => true
  | _ => false

/-- Recognizer for the `writeEnd` event. -/
def isEndEvent : WriteEvent → Bool
  | .writeEnd _ => true
  | _ => false

/-- Modelled from the spec: the chunk loop of the Writer drive (spec section
4.6).  State: the source's remaining points (`total`, `index`), the buffer
capacity `chunk`, the target count, the points written so far `actual`, and
the ordinal `k` of the next buffer write.  `failAt = some j` makes the j-th
`writeBuffer` call fail with a `WriteError`, aborting the loop.  Returns the
event trace of the loop body, the accumulated written count, and whether the
loop completed without a write failure. -/
def writeLoop (total chunk target : Nat) (failAt : Option Nat)
    (index actual k : Nat) : List WriteEvent × Nat × Bool :=
  if target ≠ 0 ∧ target ≤ actual then ([], actual, true)
  else
    if h : min (if target = 0 then chunk else min chunk (target - actual)) (total - index) = 0 then
      ([], actual, true)
    else if failAt = some k then
      ([.writeBufferBegin, .writeError], actual, false)
    else
      let numRead := min (if target = 0 then chunk else min chunk (target - actual)) (total - index)
      let rest := writeLoop total chunk target failAt (index + numRead) (actual + numRead) (k + 1)
      (.writeBufferBegin :: .writeBuffer numRead :: .writeBufferEnd :: rest.1, rest.2.1, rest.2.2)
termination_by total - index
decreasing_by
  have hle : min (if target = 0 then chunk else min chunk (target - actual)) (total - index)
      ≤ total - index := Nat.min_le_right _ _
  omega

/-- Modelled from the spec: `Writer::write(targetNumPointsToWrite)` brackets
the chunk loop with `writeBegin` before any data flows and `writeEnd` after
the loop terminates, passing the accumulated written count to `writeEnd`;
`writeEnd` is emitted on the failure path as well (spec sections 4.6 and 7).
Returns the full event trace, the written count, and the success flag. -/
def Writer.write (total chunk target : Nat) (failAt : Option Nat) :
    List WriteEvent × Nat × Bool :=
  let r := writeLoop total chunk target failAt 0 0 0
  (.writeBegin :: (r.1 ++ [.writeEnd r.2.1]), r.2.1, r.2.2)

/-! ### pgpointcloud driver Writer (`src/src/drivers/pgpointcloud/Writer.cpp`).
Database effects are modelled as a `DbEnv` state plus a `SessionAction`
trace; the soci session calls `begin`/`commit` and the statements sent with
`once`/`prepare` become trace actions. -/

namespace pgpointcloud

/-- Patch compression kinds of the driver. -/
inductive CompressionType where
  | COMPRESSION_NONE
  | COMPRESSION_DIMENSIONAL
  | COMPRESSION_GHT
deriving DecidableEq

/-- Modelled from the driver header (absent from the source set): maps the
`compression` option string to a compression type; unknown strings map to
no compression. -/
def getCompressionType (s : String) : CompressionType :=
  if s = "dimensional" then .COMPRESSION_DIMENSIONAL
  else if s = "ght" then .COMPRESSION_GHT
  else .COMPRESSION_NONE

/-- Database session actions observed by the external store. -/
inductive SessionAction where
  | beginTxn
  | commitTxn
  | rollbackTxn
  | execSql (sql : String)
  | querySql (sql : String)
  | insertBlock (table : String) (payload : List Nat)
deriving DecidableEq

/-- Recognizer for the transaction-rollback session action. -/
def SessionAction.isRollback : SessionAction → Bool
  | .rollbackTxn => true
  | _ => false

/-- Recognizer for the transaction-commit session action. -/
def SessionAction.isCommit : SessionAction → Bool
  | .commitTxn => true
  | _ => false

/-- One row of the external `pointcloud_formats` catalog. -/
structure CatalogEntry where
  pcid : Nat
  srid : Nat
  schema : Schema
deriving DecidableEq

/-- The external `pointcloud_formats` catalog. -/
structure Catalog where
  entries : List CatalogEntry
deriving DecidableEq

/-- The fresh id chosen by `Writer::SetupSchema` when no catalog entry
matches: 1 when the catalog is empty (Writer.cpp lines 317-320), otherwise
`Max(pcid)+1` (lines 321-325). -/
def freshPcid (cat : Catalog) : Nat :=
  if cat.entries.length = 0 then 1
  else (cat.entries.map (fun e => e.pcid)).foldl max 0 + 1

/-- External database state visible to the writer: the table names existing
in `pg_tables` and the `pointcloud_formats` catalog. -/
structure DbEnv where
  tables : List String
  catalog : Catalog
deriving DecidableEq

/-- The driver Writer state after construction/initialization (the `m_`
members of `pdal::drivers::pgpointcloud::Writer`), plus its options. -/
structure Writer where
  opts : Options
  m_pdal_schema : Schema
  m_schema_name : String
  m_table_name : String
  m_column_name : String
  m_patch_compression_type : CompressionType
  m_patch_capacity : Nat
  m_srid : Nat
  m_pcid : Nat
  m_have_postgis : Bool
  m_create_index : Bool
  m_overwrite : Bool
  m_sdo_pc_is_initialized : Bool
deriving DecidableEq

/-- `Writer::initialize` (Writer.cpp lines 104-153): requires the `table`
option (`getValueOrThrow`), defaults `column`/`schema`/`compression`/
`connection`, throws a soci driver error when the connection string is
empty, then reads the remaining preferences with defaults.  The actual
database session construction is an external collaborator and is modelled as
succeeding.  Constructor defaults (Writer.cpp lines 70-89) supply
`m_have_postgis = false`, `m_create_index = true`,
`m_sdo_pc_is_initialized = false`. -/
def Writer.initialize (prevSchema : Schema) (options : Options) : Except PdalError Writer :=
  match options.getValueOrThrowS "table" with
  | .error e => .error e
  | .ok table =>
    let column := options.getValueOrDefaultS "column" "pa"
    let schemaName := options.getValueOrDefaultS "schema" ""
    let compression_str := options.getValueOrDefaultS "compression" "dimensional"
    let connection := options.getValueOrDefaultS "connection" ""
    if connection = "" then
      .error (.sociDriverError "unable to connect to database, no connection string was given!")
    else
      .ok
        { opts := options
          m_pdal_schema := prevSchema
          m_schema_name := schemaName
          m_table_name := table
          m_column_name := column
          m_patch_compression_type := getCompressionType compression_str
          m_patch_capacity := options.getValueOrDefaultN "capacity" 400
          m_srid := options.getValueOrDefaultN "srid" 4326
          m_pcid := options.getValueOrDefaultN "pcid" 0
          m_have_postgis := false
          m_create_index := true
          m_overwrite := options.getValueOrDefaultB "overwrite" true
          m_sdo_pc_is_initialized := false }

/-- `Writer::SetupSchema` (Writer.cpp lines 265-348): packs the buffer
schema; when a pcid was requested, validates its existence; otherwise scans
the catalog in order for the first entry whose schema equals the packed
schema (reusing its pcid, inserting nothing), and failing that inserts a new
entry under `freshPcid`.  Returns the outcome together with the session
actions performed. -/
def SetupSchema (cat : Catalog) (m_pcid : Nat) (buffer_schema : Schema) (srid : Nat) :
    Except PdalError (Nat × Catalog) × List SessionAction :=
  let output_schema := PackSchema buffer_schema
  if m_pcid ≠ 0 then
    let pcid_count := cat.entries.countP (fun e => e.pcid == m_pcid)
    if pcid_count = 0 then
      (.error (.pdalError "requested PCID does not exist in POINTCLOUD_FORMATS"),
       [.querySql "SELECT Count(pcid) FROM pointcloud_formats WHERE pcid = :pcid"])
    else
      (.ok (m_pcid, cat),
       [.querySql "SELECT Count(pcid) FROM pointcloud_formats WHERE pcid = :pcid"])
  else
    let schema_count := cat.entries.length
    let countQ : List SessionAction := [.querySql "SELECT Count(pcid) FROM pointcloud_formats"]
    let scanned : Option CatalogEntry × List SessionAction :=
      if 0 < schema_count then
        (cat.entries.find? (fun e => schemaEq e.schema output_schema),
         countQ ++ [.querySql "SELECT pcid, schema FROM pointcloud_formats"])
      else (none, countQ)
    match scanned.1 with
    | some e => (.ok (e.pcid, cat), scanned.2)
    | none =>
      let pcid := freshPcid cat
      let maxQ : List SessionAction :=
        if schema_count = 0 then []
        else [.querySql "SELECT Max(pcid)+1 AS pcid FROM pointcloud_formats"]
      (.ok (pcid, ⟨cat.entries ++ [⟨pcid, srid, output_schema⟩]⟩),
       scanned.2 ++ maxQ
         ++ [.execSql "INSERT INTO pointcloud_formats (pcid, srid, schema) VALUES (:pcid, :srid, :xml)"])

/-- `Writer::writeBegin` (Writer.cpp lines 194-235): begins the database
transaction, runs the optional pre-SQL, checks for the target table,
applies the overwrite preference, resolves the pcid through `SetupSchema`,
and creates the table when absent.  `FileUtils::readFileAsString` falling
back to the literal statement is modelled as using the literal statement;
`CheckTableExists` scans `pg_tables` for the table name. -/
def Writer.writeBegin (w : Writer) (env : DbEnv) :
    Except PdalError (Writer × DbEnv) × List SessionAction :=
  let pre_sql := w.opts.getValueOrDefaultS "pre_sql" ""
  let t0 : List SessionAction :=
    .beginTxn :: (if pre_sql = "" then [] else [.execSql pre_sql])
  let bHaveTable := env.tables.contains w.m_table_name
  let t1 := t0 ++ [.querySql "SELECT tablename FROM pg_tables"]
  let afterDrop : Bool × DbEnv × List SessionAction :=
    if w.m_overwrite && bHaveTable then
      (false, { env with tables := env.tables.erase w.m_table_name },
       t1 ++ [.execSql "DROP TABLE IF EXISTS"])
    else (bHaveTable, env, t1)
  match SetupSchema afterDrop.2.1.catalog w.m_pcid w.m_pdal_schema w.m_srid with
  | (.error e, ts) => (.error e, afterDrop.2.2 ++ ts)
  | (.ok (pcid, cat'), ts) =>
    let w' := { w with m_pcid := pcid }
    let env' := { afterDrop.2.1 with catalog := cat' }
    if afterDrop.1 then (.ok (w', env'), afterDrop.2.2 ++ ts)
    else
      (.ok (w', { env' with tables := env'.tables ++ [w.m_table_name] }),
       afterDrop.2.2 ++ ts ++ [.execSql "CREATE TABLE"])

/-- `Writer::writeEnd` (Writer.cpp lines 237-262): optionally creates the
index, runs the optional post-SQL, and unconditionally commits the
transaction as its final action. -/
def Writer.writeEnd (w : Writer) : List SessionAction :=
  (if w.m_create_index && w.m_have_postgis then [.execSql "CREATE INDEX"] else [])
    ++ (let post_sql := w.opts.getValueOrDefaultS "post_sql" ""
        if post_sql = "" then [] else [.execSql post_sql])
    ++ [.commitTxn]

/-- `Writer::writeBufferBegin` (Writer.cpp lines 514-526): sets the
one-time-initialization flag; no database action. -/
def Writer.writeBufferBegin (w : Writer) : Writer :=
  { w with m_sdo_pc_is_initialized := true }

/-- `Writer::WriteBlock` (Writer.cpp lines 539-594): packs the point data,
looks up the `BlockID` dimension in the buffer schema (which fails with
`NotFoundError` when absent), compares the point count against the patch
capacity without raising any error (the `if` body at lines 554-557 is
empty), and inserts the packed patch into the table.  The hex/endianness
formatting of the patch header is byte-level formatting of the payload and
is not modelled; the inserted payload is the packed point data. -/
def Writer.WriteBlock (w : Writer) (buffer : PointBuffer) :
    Except PdalError Bool × List SessionAction :=
  let packed := PackPointData buffer
  match buffer.schema.getDimension "BlockID" with
  | .error e => (.error e, [])
  | .ok _blockDim =>
    let num_points := buffer.getNumPoints
    let _capacity_exceeded := decide (num_points > w.m_patch_capacity)
    (.ok true, [.insertBlock w.m_table_name packed.1])

/-- `Writer::writeBuffer` (Writer.cpp lines 530-537): reads the buffer's
point count, writes the block, and returns the full point count; a
`WriteBlock` failure propagates. -/
def Writer.writeBuffer (w : Writer) (buffer : PointBuffer) :
    Except PdalError Nat × List SessionAction :=
  let numPoints := buffer.getNumPoints
  match w.WriteBlock buffer with
  | (.error e, ts) => (.error e, ts)
  | (.ok _, ts) => (.ok numPoints, ts)

end pgpointcloud

/-! ## Packing lemmas -/

theorem packFold_dims (l : List Dimension) (c : Schema) (p : Nat) :
    ((l.foldl
      (fun (acc : Schema × Nat) d =>
        if d.isIgnored then acc
        else (acc.1.appendDimension { d with position := acc.2, parent := 0 }, acc.2 + 1))
      (c, p)).1).dims = c.dims ++ packGo l p c.byteSize := by
  induction l generalizing c p with
  | nil => simp [packGo]
  | cons d ds ih =>
    by_cases hd : d.isIgnored = true
    · simp [packGo, hd, ih]
    · simp only [List.foldl_cons, hd, ite_false]
      rw [ih]
      simp [packGo, hd, Schema.appendDimension, Schema.byteSize, Dimension.byteSize,
        List.map_append, List.sum_append]

theorem packSchema_dims (s : Schema) : (PackSchema s).dims = packGo s.dims 0 0 := by
  have h := packFold_dims s.dims ⟨[]⟩ 0
  simpa [PackSchema, Schema.byteSize] using h

theorem packGo_eq_filter (l : List Dimension) (p off : Nat) :
    packGo l p off = packGo (l.filter (fun d => !d.isIgnored)) p off := by
  induction l generalizing p off with
  | nil => simp
  | cons d ds ih =>
    by_cases hd : d.isIgnored = true
    · simp [packGo, hd, List.filter_cons, ih]
    · simp [packGo, hd, List.filter_cons, ← ih]

theorem mem_filter_not_ignored (l : List Dimension) (d : Dimension)
    (hd : d ∈ l.filter (fun d => !d.isIgnored)) : d.isIgnored = false := by
  have := List.of_mem_filter hd
  simpa using this

theorem packGo_cons_not_ignored (d : Dimension) (ds : List Dimension) (p off : Nat)
    (hd : d.isIgnored = false) :
    packGo (d :: ds) p off =
      { d with position := p, parent := 0, byteOffset := off }
        :: packGo ds (p + 1) (off + d.byteSize) := by
  simp [packGo, hd]

theorem packGo_length (l : List Dimension) (p off : Nat)
    (hl : ∀ d ∈ l, d.isIgnored = false) :
    (packGo l p off).length = l.length := by
  induction l generalizing p off with
  | nil => simp [packGo]
  | cons d ds ih =>
    have hd : d.isIgnored = false := hl d (List.mem_cons_self d ds)
    rw [packGo_cons_not_ignored d ds p off hd]
    simp [ih (p + 1) (off + d.byteSize) (fun x hx => hl x (List.mem_cons_of_mem d hx))]

theorem packGo_getD_position (l : List Dimension) (p off : Nat)
    (hl : ∀ d ∈ l, d.isIgnored = false) (i : Nat) (hi : i < l.length) :
    ((packGo l p off).getD i dimDefault).position = p + i := by
  induction l generalizing p off i with
  | nil => simp at hi
  | cons d ds ih =>
    have hd : d.isIgnored = false := hl d (List.mem_cons_self d ds)
    rw [packGo_cons_not_ignored d ds p off hd]
    cases i with
    | zero => rw [List.getD_cons_zero]; simp
    | succ j =>
      have hj : j < ds.length := by simpa using hi
      rw [List.getD_cons_succ,
        ih (p + 1) (off + d.byteSize) (fun x hx => hl x (List.mem_cons_of_mem d hx)) j hj]
      omega

theorem packGo_getD_byteOffset (l : List Dimension) (p off : Nat)
    (hl : ∀ d ∈ l, d.isIgnored = false) (i : Nat) (hi : i < l.length) :
    ((packGo l p off).getD i dimDefault).byteOffset =
      off + ((l.take i).map Dimension.byteSize).sum := by
  induction l generalizing p off i with
  | nil => simp at hi
  | cons d ds ih =>
    have hd : d.isIgnored = false := hl d (List.mem_cons_self d ds)
    rw [packGo_cons_not_ignored d ds p off hd]
    cases i with
    | zero => rw [List.getD_cons_zero]; simp
    | succ j =>
      have hj : j < ds.length := by simpa using hi
      rw [List.getD_cons_succ,
        ih (p + 1) (off + d.byteSize) (fun x hx => hl x (List.mem_cons_of_mem d hx)) j hj,
        List.take_succ_cons]
      simp
      omega

theorem packGo_getD_byteSize (l : List Dimension) (p off : Nat)
    (hl : ∀ d ∈ l, d.isIgnored = false) (i : Nat) (hi : i < l.length) :
    ((packGo l p off).getD i dimDefault).byteSize = (l.getD i dimDefault).byteSize := by
  induction l generalizing p off i with
  | nil => simp at hi
  | cons d ds ih =>
    have hd : d.isIgnored = false := hl d (List.mem_cons_self d ds)
    rw [packGo_cons_not_ignored d ds p off hd]
    cases i with
    | zero => rw [List.getD_cons_zero, List.getD_cons_zero]; simp [Dimension.byteSize]
    | succ j =>
      have hj : j < ds.length := by simpa using hi
      rw [List.getD_cons_succ, List.getD_cons_succ,
        ih (p + 1) (off + d.byteSize) (fun x hx => hl x (List.mem_cons_of_mem d hx)) j hj]

theorem packGo_map_byteSize (l : List Dimension) (p off : Nat) :
    (packGo l p off).map Dimension.byteSize =
      (l.filter (fun d => !d.isIgnored)).map Dimension.byteSize := by
  induction l generalizing p off with
  | nil => simp [packGo]
  | cons d ds ih =>
    by_cases hd : d.isIgnored = true
    · simp [packGo, hd, List.filter_cons, ih]
    · simp [packGo, hd, List.filter_cons, ih, Dimension.byteSize]

theorem packedByteSize_foldl (l : List Dimension) (a : Nat) :
    l.foldl (fun acc d => if d.isIgnored then acc else acc + d.byteSize) a =
      a + ((l.filter (fun d => !d.isIgnored)).map Dimension.byteSize).sum := by
  induction l generalizing a with
  | nil => simp
  | cons d ds ih =>
    by_cases hd : d.isIgnored = true
    · simp [hd, List.filter_cons, ih]
    · simp [hd, List.filter_cons, ih]
      omega

theorem packedByteSize_eq (s : Schema) :
    packedByteSize s = ((s.dims.filter (fun d => !d.isIgnored)).map Dimension.byteSize).sum := by
  simpa [packedByteSize] using packedByteSize_foldl s.dims 0

theorem packSchema_byteSize_eq (s : Schema) :
    (PackSchema s).byteSize =
      ((s.dims.filter (fun d => !d.isIgnored)).map Dimension.byteSize).sum := by
  rw [Schema.byteSize, packSchema_dims, packGo_map_byteSize]

theorem sum_take_succ_byteSize (l : List Dimension) (i : Nat) (hi : i < l.length) :
    ((l.take (i + 1)).map Dimension.byteSize).sum =
      ((l.take i).map Dimension.byteSize).sum + (l.getD i dimDefault).byteSize := by
  induction l generalizing i with
  | nil => simp at hi
  | cons d ds ih =>
    cases i with
    | zero => simp
    | succ j =>
      have hj : j < ds.length := by simpa using hi
      rw [List.take_succ_cons, List.take_succ_cons, List.getD_cons_succ]
      simp only [List.map_cons, List.sum_cons]
      rw [ih j hj]
      omega

/-- C1: packing a schema walks the dimensions in schema order and, writing
`kept` for the non-ignored dimensions, (a) keeps exactly the non-ignored
dimensions, (b) assigns the i-th kept dimension position i, (c) assigns it
the byte offset equal to the running sum of the preceding kept byte sizes,
(d) makes the total packed byte size the sum of the kept byte sizes, which
(e) agrees with the packed byte size computed by `PackPointData`, and (f)
makes consecutive packed byte ranges non-overlapping and, when every byte
size is positive, the offsets strictly increasing. -/
theorem pack_schema_layout_correct (s : Schema)
    (hpos : ∀ d ∈ s.dims, 0 < d.byteSize) :
    ((PackSchema s).dims.length = (s.dims.filter (fun d => !d.isIgnored)).length)
    ∧ (∀ i, i < (PackSchema s).dims.length →
        ((PackSchema s).dims.getD i dimDefault).position = i)
    ∧ (∀ i, i < (PackSchema s).dims.length →
        ((PackSchema s).dims.getD i dimDefault).byteOffset =
          (((s.dims.filter (fun d => !d.isIgnored)).take i).map Dimension.byteSize).sum)
    ∧ ((PackSchema s).byteSize =
        ((s.dims.filter (fun d => !d.isIgnored)).map Dimension.byteSize).sum)
    ∧ (packedByteSize s = (PackSchema s).byteSize)
    ∧ (∀ i, i + 1 < (PackSchema s).dims.length →
        ((PackSchema s).dims.getD i dimDefault).byteOffset
            + ((PackSchema s).dims.getD i dimDefault).byteSize
          ≤ ((PackSchema s).dims.getD (i + 1) dimDefault).byteOffset
        ∧ ((PackSchema s).dims.getD i dimDefault).byteOffset
          < ((PackSchema s).dims.getD (i + 1) dimDefault).byteOffset) := by
  classical
  set kept := s.dims.filter (fun d => !d.isIgnored) with hkept
  have hl : ∀ d ∈ kept, d.isIgnored = false := fun d hd => mem_filter_not_ignored s.dims d hd
  have hdims : (PackSchema s).dims = packGo kept 0 0 := by
    rw [packSchema_dims, packGo_eq_filter]
  have hlen : (PackSchema s).dims.length = kept.length := by
    rw [hdims, packGo_length kept 0 0 hl]
  refine ⟨hlen, ?_, ?_, ?_, ?_, ?_⟩
  · intro i hi
    rw [hlen] at hi
    rw [hdims, packGo_getD_position kept 0 0 hl i hi]
    omega
  · intro i hi
    rw [hlen] at hi
    rw [hdims, packGo_getD_byteOffset kept 0 0 hl i hi]
    omega
  · exact packSchema_byteSize_eq s
  · rw [packedByteSize_eq, packSchema_byteSize_eq]
  · intro i hi
    rw [hlen] at hi
    have hi0 : i < kept.length := by omega
    have h1 : ((PackSchema s).dims.getD i dimDefault).byteOffset =
        ((kept.take i).map Dimension.byteSize).sum := by
      rw [hdims, packGo_getD_byteOffset kept 0 0 hl i hi0]; omega
    have h2 : ((PackSchema s).dims.getD (i + 1) dimDefault).byteOffset =
        ((kept.take (i + 1)).map Dimension.byteSize).sum := by
      rw [hdims, packGo_getD_byteOffset kept 0 0 hl (i + 1) hi]; omega
    have h3 : ((PackSchema s).dims.getD i dimDefault).byteSize =
        (kept.getD i dimDefault).byteSize := by
      rw [hdims, packGo_getD_byteSize kept 0 0 hl i hi0]
    have h4 := sum_take_succ_byteSize kept i hi0
    have h5 : 0 < (kept.getD i dimDefault).byteSize := by
      have hmem : kept.getD i dimDefault ∈ kept := by
        rw [List.getD_eq_getElem?_getD, List.getElem?_eq_getElem hi0]
        exact List.getElem_mem hi0
      exact hpos _ (List.mem_of_mem_filter (hkept ▸ hmem))
    constructor
    · rw [h1, h2, h3, h4]
    · rw [h1, h2, h4]
      omega

/-- Witness for C1 at the concrete schema of the spec's section 8 scenario:
X:Double, Y:Double, Classification:Uint8(ignored); the packed byte size is
16 and agrees between `PackSchema` and `PackPointData`. -/
theorem pack_schema_layout_correct_witness :
    (∀ d ∈ (⟨[{ name := "X", dataType := .Double },
               { name := "Y", dataType := .Double },
               { name := "Classification", dataType := .Uint8, ignored := true }]⟩ : Schema).dims,
        0 < d.byteSize)
    ∧ (PackSchema ⟨[{ name := "X", dataType := .Double },
               { name := "Y", dataType := .Double },
               { name := "Classification", dataType := .Uint8, ignored := true }]⟩).byteSize =
        (((⟨[{ name := "X", dataType := .Double },
               { name := "Y", dataType := .Double },
               { name := "Classification", dataType := .Uint8, ignored := true }]⟩ : Schema).dims.filter
            (fun d => !d.isIgnored)).map Dimension.byteSize).sum := by
  have hp : ∀ d ∈ (⟨[{ name := "X", dataType := .Double },
               { name := "Y", dataType := .Double },
               { name := "Classification", dataType := .Uint8, ignored := true }]⟩ : Schema).dims,
      0 < d.byteSize := by decide
  exact ⟨hp, (pack_schema_layout_correct _ hp).2.2.2.1⟩

theorem packGo_idem (l : List Dimension) (p off : Nat) :
    packGo (packGo l p off) p off = packGo l p off := by
  induction l generalizing p off with
  | nil => simp [packGo]
  | cons d ds ih =>
    by_cases hd : d.isIgnored = true
    · have h1 : packGo (d :: ds) p off = packGo ds p off := by simp [packGo, hd]
      rw [h1, ih]
    · have hd' : d.isIgnored = false := by simpa using hd
      rw [packGo_cons_not_ignored d ds p off hd']
      have hd2 : ({ d with position := p, parent := 0, byteOffset := off } : Dimension).isIgnored
          = false := hd'
      rw [packGo_cons_not_ignored _ _ p off hd2]
      simp only [Dimension.byteSize]
      simp [ih (p + 1) (off + getDataTypeSize d.dataType)]

/-- C5: packing is idempotent: a once-packed schema contains no ignored
dimensions, so packing it again reproduces it unchanged, both as literal
equality and under the defined order-independent schema equality. -/
theorem pack_schema_idempotent (s : Schema) :
    PackSchema (PackSchema s) = PackSchema s
    ∧ schemaEq (PackSchema (PackSchema s)) (PackSchema s) = true := by
  have h : PackSchema (PackSchema s) = PackSchema s := by
    have h1 : (PackSchema (PackSchema s)).dims = (PackSchema s).dims := by
      rw [packSchema_dims, packSchema_dims (s := s), packGo_eq_filter (packGo s.dims 0 0) 0 0,
        ← packGo_eq_filter (packGo s.dims 0 0) 0 0, packGo_idem]
    cases hps : PackSchema (PackSchema s)
    cases hps2 : PackSchema s
    simp_all
  refine ⟨h, ?_⟩
  rw [h]
  simp [schemaEq]

/-! ## Point-data packing lemmas -/

theorem recordSlices_getD (dims : List Dimension) (r : List Nat) (i : Nat)
    (hi : i < dims.length) :
    (recordSlices dims r).getD i (dimDefault, []) =
      (dims.getD i dimDefault,
       (r.drop (unpackedOffset dims i)).take ((dims.getD i dimDefault).byteSize)) := by
  induction dims generalizing r i with
  | nil => simp at hi
  | cons d ds ih =>
    cases i with
    | zero => simp [recordSlices, unpackedOffset]
    | succ j =>
      have hj : j < ds.length := by simpa using hi
      have hoff : unpackedOffset (d :: ds) (j + 1) = d.byteSize + unpackedOffset ds j := by
        simp [unpackedOffset, List.take_succ_cons]
      have hdrop : (r.drop d.byteSize).drop (unpackedOffset ds j) =
          r.drop (unpackedOffset (d :: ds) (j + 1)) := by
        rw [List.drop_drop, hoff]
      rw [show recordSlices (d :: ds) r =
            (d, r.take d.byteSize) :: recordSlices ds (r.drop d.byteSize) from rfl,
        List.getD_cons_succ, List.getD_cons_succ, ih (r.drop d.byteSize) j hj, hdrop]

theorem packRecord_eq_slices (dims : List Dimension) (r : List Nat) :
    packRecord dims r =
      (((recordSlices dims r).filter (fun q => !q.1.isIgnored)).map Prod.snd).flatten := by
  induction dims generalizing r with
  | nil => simp [packRecord, recordSlices]
  | cons d ds ih =>
    by_cases hd : d.isIgnored = true
    · simp [packRecord, recordSlices, List.filter_cons, hd, ih]
    · simp [packRecord, recordSlices, List.filter_cons, hd, ih]

theorem packRecord_length (dims : List Dimension) (r : List Nat)
    (h : (dims.map Dimension.byteSize).sum ≤ r.length) :
    (packRecord dims r).length =
      ((dims.filter (fun d => !d.isIgnored)).map Dimension.byteSize).sum := by
  induction dims generalizing r with
  | nil => simp [packRecord]
  | cons d ds ih =>
    have hsum : d.byteSize + (ds.map Dimension.byteSize).sum ≤ r.length := by
      simpa using h
    have h' : (ds.map Dimension.byteSize).sum ≤ (r.drop d.byteSize).length := by
      simp [List.length_drop]
      omega
    by_cases hd : d.isIgnored = true
    · simp [packRecord, hd, List.filter_cons, ih (r.drop d.byteSize) h']
    · simp [packRecord, hd, List.filter_cons, ih (r.drop d.byteSize) h']
      omega

theorem flatten_map_packRecord_length (dims : List Dimension) (pts : List (List Nat))
    (h : ∀ r ∈ pts, (dims.map Dimension.byteSize).sum ≤ r.length) :
    ((pts.map (packRecord dims)).flatten).length =
      pts.length * ((dims.filter (fun d => !d.isIgnored)).map Dimension.byteSize).sum := by
  induction pts with
  | nil => simp
  | cons r rs ih =>
    have h1 := packRecord_length dims r (h r (List.mem_cons_self r rs))
    have h2 := ih (fun x hx => h x (List.mem_cons_of_mem r hx))
    simp only [List.map_cons, List.flatten_cons, List.length_append, h1, h2, List.length_cons,
      Nat.succ_mul]
    omega

/-- C9: packing a point buffer produces, for each point in order, exactly
the non-ignored dimensions' byte slices of that point's record in schema
order, copied verbatim; the output (and the reported `point_data_len`) is
`numPoints * schema_byte_size` bytes long.  The last conjunct identifies
each record slice with the absolute byte range of its dimension inside the
unpacked record. -/
theorem pack_point_data_verbatim (buffer : PointBuffer)
    (h : ∀ r ∈ buffer.points, buffer.schema.byteSize ≤ r.length) :
    ((PackPointData buffer).1 =
      (buffer.points.map (fun r =>
        (((recordSlices buffer.schema.dims r).filter
            (fun q => !q.1.isIgnored)).map Prod.snd).flatten)).flatten)
    ∧ ((PackPointData buffer).1.length = buffer.getNumPoints * (PackPointData buffer).2.2)
    ∧ ((PackPointData buffer).2.1 = buffer.getNumPoints * (PackPointData buffer).2.2)
    ∧ (∀ (r : List Nat) (i : Nat), i < buffer.schema.dims.length →
        (recordSlices buffer.schema.dims r).getD i (dimDefault, []) =
          (buffer.schema.dims.getD i dimDefault,
           (r.drop (unpackedOffset buffer.schema.dims i)).take
             ((buffer.schema.dims.getD i dimDefault).byteSize))) := by
  refine ⟨?_, ?_, rfl, ?_⟩
  · have hfe : packRecord buffer.schema.dims = fun r =>
        (((recordSlices buffer.schema.dims r).filter
            (fun q => !q.1.isIgnored)).map Prod.snd).flatten :=
      funext (fun r => packRecord_eq_slices buffer.schema.dims r)
    simp only [PackPointData, hfe]
  · have hh : ∀ r ∈ buffer.points, (buffer.schema.dims.map Dimension.byteSize).sum ≤ r.length :=
      fun r hr => h r hr
    have := flatten_map_packRecord_length buffer.schema.dims buffer.points hh
    simp only [PackPointData, PointBuffer.getNumPoints, packedByteSize_eq]
    exact this
  · intro r i hi
    exact recordSlices_getD buffer.schema.dims r i hi

/-- Witness for C9 at a concrete buffer: schema A:Uint8,
B:Uint16(ignored), C:Uint8; two 4-byte records; the packed data is
2 points x 2 bytes. -/
theorem pack_point_data_verbatim_witness :
    (∀ r ∈ (⟨⟨[{ name := "A", dataType := .Uint8 },
                { name := "B", dataType := .Uint16, ignored := true },
                { name := "C", dataType := .Uint8 }]⟩,
              [[1, 2, 3, 4], [5, 6, 7, 8]]⟩ : PointBuffer).points,
        (⟨⟨[{ name := "A", dataType := .Uint8 },
            { name := "B", dataType := .Uint16, ignored := true },
            { name := "C", dataType := .Uint8 }]⟩,
          [[1, 2, 3, 4], [5, 6, 7, 8]]⟩ : PointBuffer).schema.byteSize ≤ r.length)
    ∧ ((PackPointData ⟨⟨[{ name := "A", dataType := .Uint8 },
                { name := "B", dataType := .Uint16, ignored := true },
                { name := "C", dataType := .Uint8 }]⟩,
              [[1, 2, 3, 4], [5, 6, 7, 8]]⟩).1.length =
        (⟨⟨[{ name := "A", dataType := .Uint8 },
            { name := "B", dataType := .Uint16, ignored := true },
            { name := "C", dataType := .Uint8 }]⟩,
          [[1, 2, 3, 4], [5, 6, 7, 8]]⟩ : PointBuffer).getNumPoints *
          (PackPointData ⟨⟨[{ name := "A", dataType := .Uint8 },
                { name := "B", dataType := .Uint16, ignored := true },
                { name := "C", dataType := .Uint8 }]⟩,
              [[1, 2, 3, 4], [5, 6, 7, 8]]⟩).2.2) := by
  have hh : ∀ r ∈ (⟨⟨[{ name := "A", dataType := .Uint8 },
                { name := "B", dataType := .Uint16, ignored := true },
                { name := "C", dataType := .Uint8 }]⟩,
              [[1, 2, 3, 4], [5, 6, 7, 8]]⟩ : PointBuffer).points,
      (⟨⟨[{ name := "A", dataType := .Uint8 },
          { name := "B", dataType := .Uint16, ignored := true },
          { name := "C", dataType := .Uint8 }]⟩,
        [[1, 2, 3, 4], [5, 6, 7, 8]]⟩ : PointBuffer).schema.byteSize ≤ r.length := by
    decide
  exact ⟨hh, (pack_point_data_verbatim _ hh).2.1⟩

/-! ## StageIterator contracts -/

/-- C2: `read` fills the buffer with up to `min(chunkSize, capacity)` points
taken from the source starting at the current index, returns the count
actually placed (less than requested only at end-of-stream), advances
`m_index` by exactly that count, and leaves the chunk size unchanged; when
the underlying source fails, `read` fails with `ReadError` and the iterator
(in particular its current index) is unchanged. -/
theorem stage_iterator_read_contract (src : SourceModel) (it : StageIterator) (capacity : Nat) :
    (∀ n buf it', StageIterator.read src it capacity = (.ok (n, buf), it') →
        n ≤ min it.m_chunkSize capacity
        ∧ it'.m_index = it.m_index + n
        ∧ it'.m_chunkSize = it.m_chunkSize
        ∧ buf = (List.range n).map (fun k => src.point (it.m_index + k))
        ∧ (n < min it.m_chunkSize capacity → src.total ≤ it'.m_index))
    ∧ (src.fails = true → StageIterator.read src it capacity = (.error .readError, it))
    ∧ (src.fails = false →
        (StageIterator.read src it capacity).1 =
          .ok (min (min it.m_chunkSize capacity) (src.total - it.m_index),
            (List.range (min (min it.m_chunkSize capacity) (src.total - it.m_index))).map
              (fun k => src.point (it.m_index + k)))) := by
  refine ⟨?_, fun hf => by simp [StageIterator.read, hf], fun hf => by simp [StageIterator.read, hf]⟩
  intro n buf it' h
  by_cases hf : src.fails = true
  · simp [StageIterator.read, hf] at h
  · have hf' : src.fails = false := by simpa using hf
    simp only [StageIterator.read, hf', Bool.false_eq_true, if_false, Prod.mk.injEq,
      Except.ok.injEq] at h
    obtain ⟨⟨hn, hbuf⟩, hit⟩ := h
    subst hit
    refine ⟨by omega, by simp [← hn], by simp, ?_, ?_⟩
    · rw [← hbuf, ← hn]
    · intro hlt
      simp only [StageIterator.mk.injEq]
      show src.total ≤ it.m_index + min (min it.m_chunkSize capacity) (src.total - it.m_index)
      omega

/-- Witness for C2: a 10-point source read at index 2 with chunk size 5 into
a capacity-3 buffer advances the index by 3; a failing source returns
`ReadError` with the iterator unchanged. -/
theorem stage_iterator_read_contract_witness :
    ((StageIterator.read ⟨10, fun k => k, false⟩ ⟨2, 5⟩ 3).2).m_index = 2 + 3
    ∧ StageIterator.read ⟨10, fun k => k, true⟩ ⟨2, 5⟩ 3 = (.error .readError, ⟨2, 5⟩) := by
  constructor
  · exact ((stage_iterator_read_contract ⟨10, fun k => k, false⟩ ⟨2, 5⟩ 3).1
      3 [2, 3, 4] ⟨5, 5⟩ rfl).2.1
  · exact (stage_iterator_read_contract ⟨10, fun k => k, true⟩ ⟨2, 5⟩ 3).2.1 rfl

theorem naiveSkipImpl_zero (src : SourceModel) (it : StageIterator) :
    StageIterator.naiveSkipImpl src it 0 = .ok (0, it) := by
  rw [StageIterator.naiveSkipImpl]
  simp

theorem naiveSkipImpl_stop (src : SourceModel) (it it1 : StageIterator) (count n : Nat)
    (buf : List Nat) (h1 : count ≠ 0)
    (hread : StageIterator.read src it count = (.ok (n, buf), it1)) (h0 : n = 0) :
    StageIterator.naiveSkipImpl src it count = .ok (0, it1) := by
  rw [StageIterator.naiveSkipImpl, dif_neg h1, hread]
  simp [h0]

theorem naiveSkipImpl_step (src : SourceModel) (it it1 it2 : StageIterator)
    (count n rest : Nat) (buf : List Nat) (h1 : count ≠ 0)
    (hread : StageIterator.read src it count = (.ok (n, buf), it1)) (h0 : n ≠ 0)
    (hrec : StageIterator.naiveSkipImpl src it1 (count - n) = .ok (rest, it2)) :
    StageIterator.naiveSkipImpl src it count = .ok (n + rest, it2) := by
  rw [StageIterator.naiveSkipImpl, dif_neg h1, hread]
  simp [dif_neg h0, hrec]

theorem naiveSkipImpl_ok (src : SourceModel) (hf : src.fails = false) :
    ∀ count it, 0 < it.m_chunkSize →
      ∃ k it', StageIterator.naiveSkipImpl src it count = .ok (k, it')
        ∧ it'.m_index = it.m_index + k
        ∧ it'.m_chunkSize = it.m_chunkSize
        ∧ k ≤ count
        ∧ (k < count → src.total ≤ it'.m_index) := by
  intro count
  induction count using Nat.strong_induction_on with
  | _ count ih =>
    intro it hc
    by_cases h1 : count = 0
    · subst h1
      exact ⟨0, it, naiveSkipImpl_zero src it, by omega, rfl, le_refl 0, by omega⟩
    · have hread : StageIterator.read src it count =
          (.ok (min (min it.m_chunkSize count) (src.total - it.m_index),
            (List.range (min (min it.m_chunkSize count) (src.total - it.m_index))).map
              (fun k => src.point (it.m_index + k))),
           { it with m_index := it.m_index + min (min it.m_chunkSize count) (src.total - it.m_index) }) := by
        simp [StageIterator.read, hf]
      by_cases h0 : min (min it.m_chunkSize count) (src.total - it.m_index) = 0
      · refine ⟨0, _, naiveSkipImpl_stop src it _ count _ _ h1 hread h0, ?_, ?_, ?_, ?_⟩
        · simp [h0]
        · simp
        · omega
        · intro _
          show src.total ≤ it.m_index + min (min it.m_chunkSize count) (src.total - it.m_index)
          omega
      · obtain ⟨k', it'', heq, hidx, hch, hle, heos⟩ :=
          ih (count - min (min it.m_chunkSize count) (src.total - it.m_index)) (by omega)
            { it with m_index := it.m_index + min (min it.m_chunkSize count) (src.total - it.m_index) }
            (by simpa using hc)
        refine ⟨min (min it.m_chunkSize count) (src.total - it.m_index) + k', it'',
          naiveSkipImpl_step src it _ it'' count _ k' _ h1 hread h0 heq, ?_, ?_, ?_, ?_⟩
        · rw [hidx]
          show it.m_index + min (min it.m_chunkSize count) (src.total - it.m_index) + k' =
            it.m_index + (min (min it.m_chunkSize count) (src.total - it.m_index) + k')
          omega
        · simpa using hch
        · omega
        · intro hlt
          exact heos (by omega)

/-- C6: the sequential iterator's skip (realized by the default
`naiveSkipImpl`, which repeatedly reads into a throwaway buffer): `skip(0)`
returns 0 and leaves the iterator unchanged; after `skip(N)` the new index
equals the prior index plus the returned value; the returned value is less
than `N` only when end-of-stream (`atEnd`) has been reached. -/
theorem sequential_skip_contract (src : SourceModel) (it : StageIterator) (count : Nat)
    (hf : src.fails = false) (hc : 0 < it.m_chunkSize) :
    (StageSequentialIterator.skip src it 0 = .ok (0, it))
    ∧ (∀ k it', StageSequentialIterator.skip src it count = .ok (k, it') →
        it'.m_index = it.m_index + k
        ∧ k ≤ count
        ∧ (k < count → StageSequentialIterator.atEnd src it' = true))
    ∧ (∃ k it', StageSequentialIterator.skip src it count = .ok (k, it')) := by
  obtain ⟨k₀, it₀, heq, hidx, hch, hle, heos⟩ := naiveSkipImpl_ok src hf count it hc
  refine ⟨?_, ?_, ⟨k₀, it₀, heq⟩⟩
  · exact naiveSkipImpl_zero src it
  · intro k it' h
    rw [StageSequentialIterator.skip] at h
    rw [heq] at h
    simp only [Except.ok.injEq, Prod.mk.injEq] at h
    obtain ⟨hk, hit⟩ := h
    subst hk
    subst hit
    refine ⟨hidx, hle, ?_⟩
    intro hlt
    simp only [StageSequentialIterator.atEnd, decide_eq_true_eq]
    exact heos hlt

/-- Witness for C6: a 10-point non-failing source with chunk size 4:
`skip(0)` is a no-op, and `skip(25)` succeeds (returning 10 and stopping at
end-of-stream). -/
theorem sequential_skip_contract_witness :
    (StageSequentialIterator.skip ⟨10, fun k => k, false⟩ ⟨0, 4⟩ 0 = .ok (0, ⟨0, 4⟩))
    ∧ ∃ k it', StageSequentialIterator.skip ⟨10, fun k => k, false⟩ ⟨0, 4⟩ 25 = .ok (k, it') := by
  have h := sequential_skip_contract ⟨10, fun k => k, false⟩ ⟨0, 4⟩ 25 rfl (by decide)
  exact ⟨h.1, h.2.2⟩

/-! ## Writer drive loop contracts -/

theorem writeLoop_trace_counts (total chunk target : Nat) (failAt : Option Nat) :
    ∀ m index actual k, total - index ≤ m →
      ((writeLoop total chunk target failAt index actual k).1.countP isBeginEvent = 0)
      ∧ ((writeLoop total chunk target failAt index actual k).1.countP isEndEvent = 0) := by
  intro m
  induction m with
  | zero =>
    intro index actual k h
    rw [writeLoop]
    by_cases hb : target ≠ 0 ∧ target ≤ actual
    · rw [if_pos hb]
      simp
    · rw [if_neg hb]
      have h0 : total - index = 0 := by omega
      have hz : min (if target = 0 then chunk else min chunk (target - actual))
          (total - index) = 0 := by
        rw [h0, Nat.min_zero]
      rw [dif_pos hz]
      simp
  | succ m ih =>
    intro index actual k h
    rw [writeLoop]
    by_cases hb : target ≠ 0 ∧ target ≤ actual
    · rw [if_pos hb]
      simp
    · rw [if_neg hb]
      by_cases hz : min (if target = 0 then chunk else min chunk (target - actual))
          (total - index) = 0
      · rw [dif_pos hz]
        simp
      · rw [dif_neg hz]
        by_cases hfail : failAt = some k
        · rw [if_pos hfail]
          simp [isBeginEvent, isEndEvent]
        · rw [if_neg hfail]
          have hrec := ih
            (index + min (if target = 0 then chunk else min chunk (target - actual)) (total - index))
            (actual + min (if target = 0 then chunk else min chunk (target - actual)) (total - index))
            (k + 1) (by omega)
          simp only []
          simp [isBeginEvent, isEndEvent, List.countP_cons, hrec.1, hrec.2]

theorem writeLoop_actual (total chunk target : Nat) (hc : 0 < chunk) :
    ∀ m index actual k, total - index ≤ m →
      (writeLoop total chunk target none index actual k).2.1 =
        if target = 0 then actual + (total - index)
        else actual + min (target - actual) (total - index) := by
  intro m
  induction m with
  | zero =>
    intro index actual k h
    rw [writeLoop]
    by_cases hb : target ≠ 0 ∧ target ≤ actual
    · rw [if_pos hb]
      simp only []
      split_ifs with ht
      · exact absurd ht hb.1
      · omega
    · rw [if_neg hb]
      have h0 : total - index = 0 := by omega
      have hz : min (if target = 0 then chunk else min chunk (target - actual))
          (total - index) = 0 := by
        rw [h0, Nat.min_zero]
      rw [dif_pos hz]
      simp only []
      split_ifs with ht
      · omega
      · omega
  | succ m ih =>
    intro index actual k h
    rw [writeLoop]
    by_cases hb : target ≠ 0 ∧ target ≤ actual
    · rw [if_pos hb]
      simp only []
      split_ifs with ht
      · exact absurd ht hb.1
      · omega
    · rw [if_neg hb]
      by_cases hz : min (if target = 0 then chunk else min chunk (target - actual))
          (total - index) = 0
      · rw [dif_pos hz]
        simp only []
        by_cases ht : target = 0
        · rw [if_pos ht]
          rw [if_pos ht] at hz
          omega
        · rw [if_neg ht]
          rw [if_neg ht] at hz
          omega
      · rw [dif_neg hz]
        rw [if_neg (by simp : ¬(none : Option Nat) = some k)]
        have hrec := ih
          (index + min (if target = 0 then chunk else min chunk (target - actual)) (total - index))
          (actual + min (if target = 0 then chunk else min chunk (target - actual)) (total - index))
          (k + 1) (by omega)
        simp only []
        rw [hrec]
        split_ifs with ht
        · omega
        · omega

/-- C3: the drive loop `write(targetCount)` emits `writeBegin` exactly once,
as the very first event, and `writeEnd` exactly once, as the very last event
carrying the accumulated written count — including runs in which a buffer
write fails partway (`failAt`); and when no write fails, `targetCount = 0`
drains the source completely while a nonzero `targetCount` is an upper
bound, the loop stopping early if the source exhausts first (written count
`min targetCount total`). -/
theorem writer_drive_loop_contract (total chunk target : Nat) (failAt : Option Nat)
    (hc : 0 < chunk) :
    ((Writer.write total chunk target failAt).1.countP isBeginEvent = 1)
    ∧ ((Writer.write total chunk target failAt).1.head? = some .writeBegin)
    ∧ ((Writer.write total chunk target failAt).1.countP isEndEvent = 1)
    ∧ ((Writer.write total chunk target failAt).1.getLast? =
        some (.writeEnd (Writer.write total chunk target failAt).2.1))
    ∧ (failAt = none → target = 0 → (Writer.write total chunk target failAt).2.1 = total)
    ∧ (failAt = none → target ≠ 0 →
        (Writer.write total chunk target failAt).2.1 = min target total) := by
  obtain ⟨hb0, he0⟩ := writeLoop_trace_counts total chunk target failAt total 0 0 0 (by omega)
  refine ⟨?_, rfl, ?_, ?_, ?_, ?_⟩
  · simp [Writer.write, List.countP_cons, List.countP_append, hb0, isBeginEvent, isEndEvent]
  · simp [Writer.write, List.countP_cons, List.countP_append, he0, isBeginEvent, isEndEvent]
  · show (.writeBegin :: ((writeLoop total chunk target failAt 0 0 0).1
        ++ [.writeEnd (writeLoop total chunk target failAt 0 0 0).2.1])).getLast? =
      some (.writeEnd (Writer.write total chunk target failAt).2.1)
    rw [← List.cons_append, List.getLast?_concat]
    rfl
  · intro hfa ht
    subst hfa
    have := writeLoop_actual total chunk target hc total 0 0 0 (by omega)
    rw [if_pos ht] at this
    show (writeLoop total chunk target none 0 0 0).2.1 = total
    omega
  · intro hfa ht
    subst hfa
    have := writeLoop_actual total chunk target hc total 0 0 0 (by omega)
    rw [if_neg ht] at this
    show (writeLoop total chunk target none 0 0 0).2.1 = min target total
    omega

/-- Witness for C3: draining a 10-point source with chunk size 3 and
target 0 writes all 10 points; with a failure injected at the second buffer
write, the trace still contains exactly one `writeEnd`. -/
theorem writer_drive_loop_contract_witness :
    ((Writer.write 10 3 0 none).2.1 = 10)
    ∧ ((Writer.write 10 3 0 (some 1)).1.countP isEndEvent = 1)
    ∧ ((Writer.write 10 3 7 none).2.1 = min 7 10) := by
  refine ⟨(writer_drive_loop_contract 10 3 0 none (by decide)).2.2.2.2.1 rfl rfl,
    (writer_drive_loop_contract 10 3 0 (some 1) (by decide)).2.2.1,
    (writer_drive_loop_contract 10 3 7 none (by decide)).2.2.2.2.2 rfl (by decide)⟩

/-! ## Options and Writer::initialize contracts -/

/-- C4: the option accessors satisfy their contracts — `getValueOrThrow`
fails with `MissingOptionError` naming the key exactly when the key is
absent, `getValueOrDefault` always returns the present value or the
default — and `Writer::initialize` fails with `MissingOptionError "table"`
exactly when the required `table` option is absent (no other
`MissingOptionError` is possible), resolving every optional option to its
default on the successful path. -/
theorem pg_initialize_options_contract (options : Options) (prevSchema : Schema) :
    (∀ key, options.findS key = none →
        options.getValueOrThrowS key = .error (.missingOption key))
    ∧ (∀ key v, options.findS key = some v → options.getValueOrThrowS key = .ok v)
    ∧ (∀ key d v, options.findS key = some v → options.getValueOrDefaultS key d = v)
    ∧ (∀ key d, options.findS key = none → options.getValueOrDefaultS key d = d)
    ∧ (options.findS "table" = none →
        pgpointcloud.Writer.initialize prevSchema options = .error (.missingOption "table"))
    ∧ (∀ key, pgpointcloud.Writer.initialize prevSchema options = .error (.missingOption key) →
        key = "table" ∧ options.findS "table" = none)
    ∧ (∀ w, pgpointcloud.Writer.initialize prevSchema options = .ok w →
        options.findS "table" = some w.m_table_name
        ∧ w.m_column_name = options.getValueOrDefaultS "column" "pa"
        ∧ w.m_schema_name = options.getValueOrDefaultS "schema" ""
        ∧ w.m_patch_compression_type =
            pgpointcloud.getCompressionType (options.getValueOrDefaultS "compression" "dimensional")
        ∧ w.m_patch_capacity = options.getValueOrDefaultN "capacity" 400
        ∧ w.m_srid = options.getValueOrDefaultN "srid" 4326
        ∧ w.m_pcid = options.getValueOrDefaultN "pcid" 0
        ∧ w.m_overwrite = options.getValueOrDefaultB "overwrite" true) := by
  refine ⟨?_, ?_, ?_, ?_, ?_, ?_, ?_⟩
  · intro key hk
    simp [Options.getValueOrThrowS, hk]
  · intro key v hk
    simp [Options.getValueOrThrowS, hk]
  · intro key d v hk
    simp [Options.getValueOrDefaultS, hk]
  · intro key d hk
    simp [Options.getValueOrDefaultS, hk]
  · intro hk
    simp [ pgpointcloud.Writer.initialize, Options.getValueOrThrowS, hk]
  · intro key h
    cases hk : options.findS "table" with
    | none =>
      simp [ pgpointcloud.Writer.initialize, Options.getValueOrThrowS, hk] at h
      exact ⟨h.symm, rfl⟩
    | some t =>
      exfalso
      by_cases hcon : options.getValueOrDefaultS "connection" "" = ""
      · simp [ pgpointcloud.Writer.initialize, Options.getValueOrThrowS, hk, hcon] at h
      · simp [ pgpointcloud.Writer.initialize, Options.getValueOrThrowS, hk, hcon] at h
  · intro w h
    cases hk : options.findS "table" with
    | none =>
      exfalso
      simp [ pgpointcloud.Writer.initialize, Options.getValueOrThrowS, hk] at h
    | some t =>
      by_cases hcon : options.getValueOrDefaultS "connection" "" = ""
      · exfalso
        simp [ pgpointcloud.Writer.initialize, Options.getValueOrThrowS, hk, hcon] at h
      · simp only [ pgpointcloud.Writer.initialize, Options.getValueOrThrowS, hk] at h
        rw [if_neg hcon] at h
        simp only [Except.ok.injEq] at h
        subst h
        exact ⟨rfl, rfl, rfl, rfl, rfl, rfl, rfl, rfl⟩

/-- Witness for C4: with only a `connection` option, `initialize` fails with
`MissingOptionError "table"`; the accessors behave as stated on the same
concrete option map. -/
theorem pg_initialize_options_contract_witness :
    ( pgpointcloud.Writer.initialize ⟨[]⟩ ⟨[("connection", .vs "dbname=pc")]⟩ =
      .error (.missingOption "table"))
    ∧ ((⟨[("connection", OptValue.vs "dbname=pc")]⟩ : Options).getValueOrThrowS "table" =
        .error (.missingOption "table"))
    ∧ ((⟨[("connection", OptValue.vs "dbname=pc")]⟩ : Options).getValueOrDefaultS "column" "pa"
        = "pa") := by
  refine ⟨(pg_initialize_options_contract ⟨[("connection", .vs "dbname=pc")]⟩ ⟨[]⟩).2.2.2.2.1
      (by decide),
    (pg_initialize_options_contract ⟨[("connection", .vs "dbname=pc")]⟩ ⟨[]⟩).1 "table"
      (by decide),
    (pg_initialize_options_contract ⟨[("connection", .vs "dbname=pc")]⟩ ⟨[]⟩).2.2.2.1
      "column" "pa" (by decide)⟩

/-! ## SetupSchema deduplication -/

/-- C7: on the registration path (`m_pcid = 0`) `SetupSchema` packs the
schema and scans the catalog in order: a first entry whose stored schema
equals the packed schema (under the order-independent, metadata-dependent
equality) has its id reused with no insertion; otherwise a fresh id is
assigned — 1 on an empty catalog, the maximum existing id plus one
otherwise — and the packed schema is inserted under it.  The last two
conjuncts exhibit the order-independence and the metadata-dependence of the
schema equality used for deduplication. -/
theorem setup_schema_dedup (cat : pgpointcloud.Catalog) (s : Schema) (srid : Nat) :
    (∀ e, cat.entries.find? (fun e => schemaEq e.schema (PackSchema s)) = some e →
        (pgpointcloud.SetupSchema cat 0 s srid).1 = .ok (e.pcid, cat))
    ∧ (cat.entries.find? (fun e => schemaEq e.schema (PackSchema s)) = none →
        (pgpointcloud.SetupSchema cat 0 s srid).1 =
          .ok (pgpointcloud.freshPcid cat,
            ⟨cat.entries ++ [⟨pgpointcloud.freshPcid cat, srid, PackSchema s⟩]⟩))
    ∧ (cat.entries = [] → pgpointcloud.freshPcid cat = 1)
    ∧ (cat.entries ≠ [] →
        pgpointcloud.freshPcid cat = (cat.entries.map (fun e => e.pcid)).foldl max 0 + 1)
    ∧ (∀ a b : Schema, a.dims.Perm b.dims → schemaEq a b = true)
    ∧ (schemaEq ⟨[{ name := "X", dataType := .Double, scale := 1 }]⟩
          ⟨[{ name := "X", dataType := .Double, scale := 100 }]⟩ = false) := by
  refine ⟨?_, ?_, ?_, ?_, ?_, by decide⟩
  · intro e he
    have hlen : 0 < cat.entries.length := by
      cases hc : cat.entries with
      | nil => rw [hc] at he; simp at he
      | cons a l => simp [hc]
    simp [pgpointcloud.SetupSchema, hlen, he]
  · intro he
    by_cases hc : cat.entries = []
    · simp [pgpointcloud.SetupSchema, hc, pgpointcloud.freshPcid]
    · have hlen : 0 < cat.entries.length := by
        cases h' : cat.entries with
        | nil => exact absurd h' hc
        | cons a l => simp [h']
      simp [pgpointcloud.SetupSchema, hlen, he]
  · intro h
    simp [pgpointcloud.freshPcid, h]
  · intro h
    rw [pgpointcloud.freshPcid, if_neg (fun hh => h (List.length_eq_zero.mp hh))]
  · intro a b hperm
    simp only [schemaEq, decide_eq_true_eq]
    exact hperm.map Dimension.key

/-- Witness for C7: registering against a one-entry catalog whose entry
holds the same packed schema reuses id 7 and inserts nothing. -/
theorem setup_schema_dedup_witness :
    (pgpointcloud.SetupSchema
        ⟨[⟨7, 4326, PackSchema ⟨[{ name := "X", dataType := .Double }]⟩⟩]⟩ 0
        ⟨[{ name := "X", dataType := .Double }]⟩ 4326).1 =
      .ok (7, ⟨[⟨7, 4326, PackSchema ⟨[{ name := "X", dataType := .Double }]⟩⟩]⟩) := by
  exact (setup_schema_dedup
      ⟨[⟨7, 4326, PackSchema ⟨[{ name := "X", dataType := .Double }]⟩⟩]⟩
      ⟨[{ name := "X", dataType := .Double }]⟩ 4326).1
    ⟨7, 4326, PackSchema ⟨[{ name := "X", dataType := .Double }]⟩⟩ (by decide)

/-! ## Transaction bracket -/

theorem setupSchema_trace (cat : pgpointcloud.Catalog) (m_pcid : Nat) (s : Schema)
    (srid : Nat) :
    ((pgpointcloud.SetupSchema cat m_pcid s srid).2.countP pgpointcloud.SessionAction.isRollback = 0)
    ∧ ((pgpointcloud.SetupSchema cat m_pcid s srid).2.countP pgpointcloud.SessionAction.isCommit = 0) := by
  rw [pgpointcloud.SetupSchema]
  by_cases hp : m_pcid ≠ 0
  · rw [if_pos hp]
    by_cases hc : cat.entries.countP (fun e => e.pcid == m_pcid) = 0
    · rw [if_pos hc]
      simp [pgpointcloud.SessionAction.isRollback, pgpointcloud.SessionAction.isCommit]
    · rw [if_neg hc]
      simp [pgpointcloud.SessionAction.isRollback, pgpointcloud.SessionAction.isCommit]
  · rw [if_neg hp]
    simp only []
    by_cases hlen : 0 < cat.entries.length
    · rw [if_pos hlen]
      simp only []
      cases hf : cat.entries.find? (fun e => schemaEq e.schema (PackSchema s)) with
      | some e =>
        simp [hf, pgpointcloud.SessionAction.isRollback, pgpointcloud.SessionAction.isCommit]
      | none =>
        simp only []
        rw [if_neg (by omega : ¬cat.entries.length = 0)]
        simp [pgpointcloud.SessionAction.isRollback, pgpointcloud.SessionAction.isCommit, List.countP_append]
    · rw [if_neg hlen]
      simp only []
      rw [if_pos (by omega : cat.entries.length = 0)]
      simp [pgpointcloud.SessionAction.isRollback, pgpointcloud.SessionAction.isCommit, List.countP_append]

theorem writeBegin_trace (w : pgpointcloud.Writer) (env : pgpointcloud.DbEnv) :
    ((w.writeBegin env).2.head? = some .beginTxn)
    ∧ ((w.writeBegin env).2.countP pgpointcloud.SessionAction.isRollback = 0)
    ∧ ((w.writeBegin env).2.countP pgpointcloud.SessionAction.isCommit = 0) := by
  rw [pgpointcloud.Writer.writeBegin]
  simp only []
  by_cases hover : (w.m_overwrite && env.tables.contains w.m_table_name) = true
  · rw [if_pos hover]
    simp only []
    obtain ⟨hr, hcm⟩ := setupSchema_trace env.catalog w.m_pcid w.m_pdal_schema w.m_srid
    rcases hset : pgpointcloud.SetupSchema env.catalog w.m_pcid w.m_pdal_schema w.m_srid
      with ⟨res, ts⟩
    rw [hset] at hr hcm
    replace hr : List.countP pgpointcloud.SessionAction.isRollback ts = 0 := hr
    replace hcm : List.countP pgpointcloud.SessionAction.isCommit ts = 0 := hcm
    cases res with
    | error e =>
      refine ⟨?_, ?_, ?_⟩
      · split_ifs <;> simp
      · split_ifs <;>
          simp [List.countP_append, List.countP_cons, hr, pgpointcloud.SessionAction.isRollback]
      · split_ifs <;>
          simp [List.countP_append, List.countP_cons, hcm, pgpointcloud.SessionAction.isCommit]
    | ok v =>
      refine ⟨?_, ?_, ?_⟩
      · split_ifs <;> simp
      · split_ifs <;>
          simp [List.countP_append, List.countP_cons, hr, pgpointcloud.SessionAction.isRollback]
      · split_ifs <;>
          simp [List.countP_append, List.countP_cons, hcm, pgpointcloud.SessionAction.isCommit]
  · rw [if_neg hover]
    simp only []
    obtain ⟨hr, hcm⟩ := setupSchema_trace env.catalog w.m_pcid w.m_pdal_schema w.m_srid
    rcases hset : pgpointcloud.SetupSchema env.catalog w.m_pcid w.m_pdal_schema w.m_srid
      with ⟨res, ts⟩
    rw [hset] at hr hcm
    replace hr : List.countP pgpointcloud.SessionAction.isRollback ts = 0 := hr
    replace hcm : List.countP pgpointcloud.SessionAction.isCommit ts = 0 := hcm
    cases res with
    | error e =>
      refine ⟨?_, ?_, ?_⟩
      · split_ifs <;> simp
      · split_ifs <;>
          simp [List.countP_append, List.countP_cons, hr, pgpointcloud.SessionAction.isRollback]
      · split_ifs <;>
          simp [List.countP_append, List.countP_cons, hcm, pgpointcloud.SessionAction.isCommit]
    | ok v =>
      refine ⟨?_, ?_, ?_⟩
      · split_ifs <;> simp
      · split_ifs <;>
          simp [List.countP_append, List.countP_cons, hr, pgpointcloud.SessionAction.isRollback]
      · split_ifs <;>
          simp [List.countP_append, List.countP_cons, hcm, pgpointcloud.SessionAction.isCommit]

theorem writeBlock_trace (w : pgpointcloud.Writer) (buffer : PointBuffer) :
    ((w.WriteBlock buffer).2.countP pgpointcloud.SessionAction.isRollback = 0)
    ∧ ((w.WriteBlock buffer).2.countP pgpointcloud.SessionAction.isCommit = 0) := by
  cases hg : buffer.schema.getDimension "BlockID" with
  | error e => simp [pgpointcloud.Writer.WriteBlock, hg]
  | ok d => simp [pgpointcloud.Writer.WriteBlock, hg, pgpointcloud.SessionAction.isRollback,
      pgpointcloud.SessionAction.isCommit]

theorem writeBuffer_trace (w : pgpointcloud.Writer) (buffer : PointBuffer) :
    ((w.writeBuffer buffer).2.countP pgpointcloud.SessionAction.isRollback = 0)
    ∧ ((w.writeBuffer buffer).2.countP pgpointcloud.SessionAction.isCommit = 0) := by
  obtain ⟨hr, hcm⟩ := writeBlock_trace w buffer
  rcases hwb : w.WriteBlock buffer with ⟨res, ts⟩
  rw [hwb] at hr hcm
  cases res with
  | error e => simp [pgpointcloud.Writer.writeBuffer, hwb, hr, hcm]
  | ok v => simp [pgpointcloud.Writer.writeBuffer, hwb, hr, hcm]

theorem writeEnd_trace (w : pgpointcloud.Writer) :
    (w.writeEnd.countP pgpointcloud.SessionAction.isRollback = 0)
    ∧ (w.writeEnd.countP pgpointcloud.SessionAction.isCommit = 1)
    ∧ (w.writeEnd.getLast? = some .commitTxn) := by
  rw [pgpointcloud.Writer.writeEnd]
  refine ⟨?_, ?_, ?_⟩
  · split_ifs <;>
      simp [List.countP_append, List.countP_cons, pgpointcloud.SessionAction.isRollback]
  · split_ifs <;>
      simp [List.countP_append, List.countP_cons, pgpointcloud.SessionAction.isCommit]
  · rw [List.append_assoc, List.getLast?_append]
    simp

/-- C8: the writer never issues a transaction rollback — not in `writeBegin`
(whose first session action opens the transaction), not in a block write,
and not in `writeEnd`; the transaction commit is issued only by `writeEnd`,
which commits unconditionally as its final session action. -/
theorem write_transaction_bracket (w : pgpointcloud.Writer) (env : pgpointcloud.DbEnv)
    (buffer : PointBuffer) :
    ((w.writeBegin env).2.head? = some .beginTxn)
    ∧ ((w.writeBegin env).2.countP pgpointcloud.SessionAction.isRollback = 0)
    ∧ ((w.writeBegin env).2.countP pgpointcloud.SessionAction.isCommit = 0)
    ∧ ((w.WriteBlock buffer).2.countP pgpointcloud.SessionAction.isRollback = 0)
    ∧ ((w.WriteBlock buffer).2.countP pgpointcloud.SessionAction.isCommit = 0)
    ∧ ((w.writeBuffer buffer).2.countP pgpointcloud.SessionAction.isRollback = 0)
    ∧ ((w.writeBuffer buffer).2.countP pgpointcloud.SessionAction.isCommit = 0)
    ∧ (w.writeEnd.countP pgpointcloud.SessionAction.isRollback = 0)
    ∧ (w.writeEnd.countP pgpointcloud.SessionAction.isCommit = 1)
    ∧ (w.writeEnd.getLast? = some .commitTxn) := by
  obtain ⟨h1, h2, h3⟩ := writeBegin_trace w env
  obtain ⟨h4, h5⟩ := writeBlock_trace w buffer
  obtain ⟨h6, h7⟩ := writeBuffer_trace w buffer
  obtain ⟨h8, h9, h10⟩ := writeEnd_trace w
  exact ⟨h1, h2, h3, h4, h5, h6, h7, h8, h9, h10⟩

/-! ## WriteBlock / writeBuffer behaviour -/

/-- Counterexample for C10 as stated: writing a block is not failure-free
for every input buffer — on a buffer whose schema has no `BlockID`
dimension, `WriteBlock` (and hence `writeBuffer`) fails with
`NotFoundError "BlockID"` from the dimension lookup at Writer.cpp line 549,
before the capacity comparison is ever reached. -/
theorem write_block_fails_without_blockid :
    ((pgpointcloud.Writer.WriteBlock
        { opts := ⟨[]⟩, m_pdal_schema := ⟨[]⟩, m_schema_name := "", m_table_name := "pts",
          m_column_name := "pa", m_patch_compression_type := .COMPRESSION_NONE,
          m_patch_capacity := 400, m_srid := 4326, m_pcid := 0, m_have_postgis := false,
          m_create_index := true, m_overwrite := true, m_sdo_pc_is_initialized := false }
        ⟨⟨[]⟩, [[]]⟩).1 = .error (.notFound "BlockID"))
    ∧ ((pgpointcloud.Writer.writeBuffer
        { opts := ⟨[]⟩, m_pdal_schema := ⟨[]⟩, m_schema_name := "", m_table_name := "pts",
          m_column_name := "pa", m_patch_compression_type := .COMPRESSION_NONE,
          m_patch_capacity := 400, m_srid := 4326, m_pcid := 0, m_have_postgis := false,
          m_create_index := true, m_overwrite := true, m_sdo_pc_is_initialized := false }
        ⟨⟨[]⟩, [[]]⟩).1 = .error (.notFound "BlockID")) := by
  constructor <;> rfl

/-- C10 amended: for every buffer whose schema contains a `BlockID`
dimension, writing a block never fails and `writeBuffer` returns the
buffer's full point count — in particular even when that count exceeds the
writer's configured patch capacity, whose violation is compared at
Writer.cpp lines 554-557 but raises no error. -/
theorem write_block_amended (w : pgpointcloud.Writer) (buffer : PointBuffer)
    (hb : buffer.schema.dims.any (fun d => d.name == "BlockID") = true) :
    ((w.WriteBlock buffer).1 = .ok true)
    ∧ ((w.writeBuffer buffer).1 = .ok buffer.getNumPoints)
    ∧ (w.m_patch_capacity < buffer.getNumPoints →
        (w.writeBuffer buffer).1 = .ok buffer.getNumPoints) := by
  have hsome : (buffer.schema.dims.find? (fun d => d.name == "BlockID")).isSome := by
    rw [List.find?_isSome]
    exact List.any_eq_true.mp hb
  obtain ⟨d, hd⟩ := Option.isSome_iff_exists.mp hsome
  have hget : buffer.schema.getDimension "BlockID" = .ok d := by
    simp [Schema.getDimension, hd]
  refine ⟨?_, ?_, fun _ => ?_⟩ <;>
    simp [pgpointcloud.Writer.WriteBlock, pgpointcloud.Writer.writeBuffer, hget]

/-- Witness for C10's amended claim: a 2-point buffer with a `BlockID`
dimension against a writer whose patch capacity is 1 — the count exceeds
the capacity, yet `writeBuffer` succeeds and returns the full count 2. -/
theorem write_block_amended_witness :
    ((pgpointcloud.Writer.writeBuffer
        { opts := ⟨[]⟩, m_pdal_schema := ⟨[]⟩, m_schema_name := "", m_table_name := "pts",
          m_column_name := "pa", m_patch_compression_type := .COMPRESSION_NONE,
          m_patch_capacity := 1, m_srid := 4326, m_pcid := 0, m_have_postgis := false,
          m_create_index := true, m_overwrite := true, m_sdo_pc_is_initialized := false }
        ⟨⟨[{ name := "BlockID", dataType := .Int32 }]⟩,
         [[0, 0, 0, 0], [1, 0, 0, 0]]⟩).1 = .ok 2)
    ∧ ((1 : Nat) <
        (⟨⟨[{ name := "BlockID", dataType := .Int32 }]⟩,
          [[0, 0, 0, 0], [1, 0, 0, 0]]⟩ : PointBuffer).getNumPoints) := by
  have hb : (⟨⟨[{ name := "BlockID", dataType := .Int32 }]⟩,
      [[0, 0, 0, 0], [1, 0, 0, 0]]⟩ : PointBuffer).schema.dims.any
        (fun d => d.name == "BlockID") = true := by decide
  exact ⟨(write_block_amended _ _ hb).2.2 (by decide), by decide⟩

end pdal
